import Mathlib

/-!
Shallow embedding of the Nagel–Schreckenberg traffic model (`model.py`):
the `VehicleAgent` per-step rule (acceleration, gap-check deceleration,
random braking, movement), the `NaSchTraffic` model with its
compute-then-commit (`SimultaneousActivation`) step, and the grid setup.
Machine integers are modelled as `Nat`; the Python float `average_speed`
is modelled as `ℚ`; the seeded Mersenne-Twister random source is modelled
as the streams it produces (an index stream driving `random.shuffle` and a
unit-interval stream driving `self.random.random()`), so the seed is the
only input of a run besides the configuration.
-/

namespace NaSch

/-- A grid coordinate `(x, y)`, as used by `mesa.space.SingleGrid`. -/
abbrev Pos := Nat × Nat

/-- State of one `VehicleAgent`: `pos`, `speed`, `max_speed`, `_next_pos`. -/
structure VehicleAgent where
  pos : Pos
  speed : Nat
  max_speed : Nat
  next_pos : Option Pos := none
deriving Repr, DecidableEq

/-- The seeded random source, modelled by the streams the simulation
consumes from it: `below k` drives the `k`-th swap-index draw of
`random.shuffle` during setup (taken modulo the allowed bound), and
`rand k` is the `k`-th `self.random.random()` draw in `[0, 1)` used for
random braking. An identical Python seed yields identical streams. -/
structure Seed where
  below : Nat → Nat
  rand : Nat → ℚ

/-- State of the `NaSchTraffic` model: grid dimensions, configuration,
the scheduled agents (in insertion order), `schedule.steps`, `running`,
`total_speed`, `average_speed`, the `averages` record, and the index of
the next `random()` draw. -/
structure NaSchState where
  width : Nat
  height : Nat
  vehicle_quantity : Nat
  general_max_speed : Nat
  vehicles : List VehicleAgent
  steps : Nat
  running : Bool
  total_speed : Nat
  average_speed : ℚ
  averages : List ℚ
  drawIdx : Nat

/-- Model of `mesa.space.Grid.torus_adj`: wrap a coordinate onto the torus. -/
def torus_adj (w h : Nat) (p : Pos) : Pos := (p.1 % w, p.2 % h)

/-- Model of `grid.is_cell_empty p`: no agent of `vs` occupies cell `p`. -/
def is_cell_empty (vs : List VehicleAgent) (p : Pos) : Bool :=
  !(vs.any (fun v => decide (v.pos = p)))

/-- STEP 1 of `VehicleAgent.step`: `if self.speed < self.max_speed: self.speed += 1`. -/
def accelerate (v : VehicleAgent) : Nat :=
  if v.speed < v.max_speed then v.speed + 1 else v.speed

/-- The gap-scan loop of STEP 2 of `VehicleAgent.step`: scan cells at
distances `dist, dist+1, ...` ahead (for `rem` remaining iterations),
counting consecutive empty cells into `acc`, stopping early once the
count reaches `speed` or an occupied cell is hit. -/
def gapLoop (w h : Nat) (e : Pos → Bool) (x y speed : Nat) : Nat → Nat → Nat → Nat
  | _, acc, 0 => acc
  | dist, acc, rem + 1 =>
    if e (torus_adj w h (x + dist, y)) then
      if acc + 1 = speed then acc + 1
      else gapLoop w h e x y speed (dist + 1) (acc + 1) rem
    else acc

/-- STEP 2 of `VehicleAgent.step`: `distance_to_next` after the scan,
starting one cell ahead, for at most `max_speed` iterations. -/
def distance_to_next (w h : Nat) (e : Pos → Bool) (v : VehicleAgent) (tentative : Nat) : Nat :=
  gapLoop w h e v.pos.1 v.pos.2 tentative 1 0 v.max_speed

/-- Model of `VehicleAgent.step` (the compute phase): acceleration, gap check,
random braking (`brake` is the outcome of `random() < 0.3`), and
computation of `_next_pos`. Returns the updated agent. -/
def vehicleStep (w h : Nat) (e : Pos → Bool) (brake : Bool) (v : VehicleAgent) : VehicleAgent :=
  let speed1 := accelerate v
  let speed2 := distance_to_next w h e v speed1
  let speed3 := if brake && decide (0 < speed2) then speed2 - 1 else speed2
  { v with speed := speed3,
           next_pos := some (torus_adj w h (v.pos.1 + speed3, v.pos.2)) }

/-- Model of `VehicleAgent.advance`: commit `_next_pos` as the new position. -/
def vehicleAdvance (v : VehicleAgent) : VehicleAgent :=
  { v with pos := v.next_pos.getD v.pos }

/-- The first half of `SimultaneousActivation.step`: every agent runs
`step()` against the unmutated grid; agent number `i` consumes the
`i`-th pending random draw. -/
def computePhase (w h : Nat) (e : Pos → Bool) (brake : Nat → Bool) :
    Nat → List VehicleAgent → List VehicleAgent
  | _, [] => []
  | i, v :: vs => vehicleStep w h e (brake i) v :: computePhase w h e brake (i + 1) vs

/-- The second half of `SimultaneousActivation.step`: every agent runs
`advance()`. -/
def advancePhase (vs : List VehicleAgent) : List VehicleAgent :=
  vs.map vehicleAdvance

/-- The braking probability `0.3` of STEP 3 of `VehicleAgent.step`,
written as `mkRat 3 10` so that concrete runs reduce; `pBrake_eq` below
records that this is the rational three tenths. -/
def pBrake : ℚ := mkRat 3 10

theorem pBrake_eq : pBrake = 3 / 10 := by
  norm_num [pBrake, Rat.mkRat_eq_div]

/-- Model of `NaSchTraffic.step`: set `running = False` when `schedule.steps == 100`,
reset `total_speed`, step then advance all agents, recompute
`average_speed`, append it to `averages`, and advance the schedule. -/
def modelStep (seed : Seed) (s : NaSchState) : NaSchState :=
  let running' := if s.steps = 100 then false else s.running
  let e := is_cell_empty s.vehicles
  let computed := computePhase s.width s.height e
    (fun i => decide (seed.rand i < pBrake)) s.drawIdx s.vehicles
  let advanced := advancePhase computed
  let total : Nat := (computed.map (fun v => v.speed)).sum
  let avg : ℚ := if 0 < advanced.length then (total : ℚ) / (advanced.length : ℚ) else 0
  { s with running := running',
           vehicles := advanced,
           steps := s.steps + 1,
           total_speed := total,
           average_speed := avg,
           averages := s.averages ++ [avg],
           drawIdx := s.drawIdx + s.vehicles.length }

/-- One swap `x[i], x[j] = x[j], x[i]` of Python's `random.shuffle`
(identity when an index is out of range, which never happens in a run). -/
def swapAt (l : List α) (i j : Nat) : List α :=
  match l.get? i, l.get? j with
  | some a, some b => (l.set i b).set j a
  | _, _ => l

/-- The Fisher–Yates loop of Python's `random.shuffle`: for `i` from
`len - 1` down to `1`, swap position `i` with a drawn position `j ≤ i`;
`c` counts the draws consumed. -/
def fyAux (below : Nat → Nat) : Nat → Nat → List α → List α
  | _, 0, l => l
  | c, i + 1, l => fyAux below (c + 1) i (swapAt l (i + 1) (below c % (i + 2)))

/-- Model of `self.random.shuffle(cells)`. -/
def pyShuffle (below : Nat → Nat) (l : List α) : List α :=
  fyAux below 0 (l.length - 1) l

/-- The `grid.coord_iter()` coordinates: `x` outer, `y` inner. -/
def coordCells (width height : Nat) : List Pos :=
  (List.range width).product (List.range height)

/-- Model of `NaSchTraffic.__init__`: build the grid's cell list, shuffle it with
the seeded source, and place one fresh agent (speed 0) on each of the
first `vehicle_quantity` cells.  Indexing `cells[i]` past the end raises
an uncaught `IndexError`, so construction completes (and `running` is
set) exactly when `vehicle_quantity` does not exceed the cell count;
a failed construction is `none`. -/
def initModel (height width vehicle_quantity general_max_speed : Nat) (seed : Seed) :
    Option NaSchState :=
  let cells := pyShuffle seed.below (coordCells width height)
  if vehicle_quantity ≤ cells.length then
    some { width := width
           height := height
           vehicle_quantity := vehicle_quantity
           general_max_speed := general_max_speed
           vehicles := (cells.take vehicle_quantity).map
             (fun c => { pos := c, speed := 0, max_speed := general_max_speed,
                         next_pos := none })
           steps := 0
           running := true
           total_speed := 0
           average_speed := 0
           averages := []
           drawIdx := 0 }
  else none

/-- A host loop (spec §6) calling `step()` while `running` is true, with
`fuel` bounding the number of probes; returns the final state and the
number of `step()` calls performed. -/
def hostLoop (seed : Seed) : Nat → NaSchState → NaSchState × Nat
  | 0, s => (s, 0)
  | fuel + 1, s =>
    if s.running then
      let r := hostLoop seed fuel (modelStep seed s)
      (r.1, r.2 + 1)
    else (s, 0)

/-- The position/speed trajectory of a run: for each step `k ≤ n`, the
list of `(pos, speed)` of every vehicle (what the data collector's
`PosX`/`Speed` reporters record), or `none` if initialization fails. -/
def trajectory (height width vehicle_quantity general_max_speed : Nat)
    (seed : Seed) (n : Nat) : Option (List (List (Pos × Nat))) :=
  (initModel height width vehicle_quantity general_max_speed seed).map (fun st =>
    (List.range (n + 1)).map (fun k =>
      (((modelStep seed)^[k]) st).vehicles.map (fun v => (v.pos, v.speed))))

/-- Modelled from the spec (§4.2, step 2): "the number of consecutive
empty cells ahead of it (up to `max_speed`)" — counting empty cells at
distances `dist, dist + 1, ...` for `rem` slots, stopping at the first
occupied cell, with no dependence on the tentative speed.  Used only to
compare the source's scan against the spec's wording. -/
def specConsecutiveEmpty (w h : Nat) (e : Pos → Bool) (x y : Nat) : Nat → Nat → Nat
  | _, 0 => 0
  | dist, rem + 1 =>
    if e (torus_adj w h (x + dist, y)) then
      specConsecutiveEmpty w h e x y (dist + 1) rem + 1
    else 0

/-! ### Basic lemmas about the gap scan -/

/-- The scan loop result sits between `acc` and `acc + rem`, and every
cell it counted (at distances `dist, …, dist + result - acc - 1`) is empty. -/
theorem gapLoop_props (w h : Nat) (e : Pos → Bool) (x y s : Nat) :
    ∀ (rem dist acc : Nat),
      acc ≤ gapLoop w h e x y s dist acc rem ∧
      gapLoop w h e x y s dist acc rem ≤ acc + rem ∧
      ∀ k, k < gapLoop w h e x y s dist acc rem - acc →
        e (torus_adj w h (x + dist + k, y)) = true := by
  intro rem
  induction rem with
  | zero =>
    intro dist acc
    refine ⟨Nat.le_refl _, Nat.le_add_right _ _, ?_⟩
    intro k hk
    simp [gapLoop] at hk
  | succ rem ih =>
    intro dist acc
    by_cases hcell : e (torus_adj w h (x + dist, y)) = true
    · by_cases hstop : acc + 1 = s
      · have hres : gapLoop w h e x y s dist acc (rem + 1) = acc + 1 := by
          simp [gapLoop, hcell, hstop]
        refine ⟨by omega, by omega, ?_⟩
        intro k hk
        rw [hres] at hk
        have hk0 : k = 0 := by omega
        subst hk0
        simpa using hcell
      · have hres : gapLoop w h e x y s dist acc (rem + 1) =
            gapLoop w h e x y s (dist + 1) (acc + 1) rem := by
          simp [gapLoop, hcell, hstop]
        obtain ⟨h1, h2, h3⟩ := ih (dist + 1) (acc + 1)
        refine ⟨by omega, by omega, ?_⟩
        intro k hk
        rw [hres] at hk
        cases k with
        | zero => simpa using hcell
        | succ k' =>
          have : k' < gapLoop w h e x y s (dist + 1) (acc + 1) rem - (acc + 1) := by omega
          have := h3 k' this
          have harg : x + (dist + 1) + k' = x + dist + (k' + 1) := by omega
          rwa [harg] at this
    · have hres : gapLoop w h e x y s dist acc (rem + 1) = acc := by
        simp [gapLoop, hcell]
      refine ⟨by omega, by omega, ?_⟩
      intro k hk
      rw [hres] at hk
      omega

/-- As long as the early-exit threshold has not been met, the scan loop
computes exactly `min` of the threshold and the count of consecutive
empty cells ahead. -/
theorem gapLoop_eq_min (w h : Nat) (e : Pos → Bool) (x y s : Nat) :
    ∀ (rem dist acc : Nat), acc < s →
      gapLoop w h e x y s dist acc rem =
        min s (acc + specConsecutiveEmpty w h e x y dist rem) := by
  intro rem
  induction rem with
  | zero =>
    intro dist acc hacc
    simp [gapLoop, specConsecutiveEmpty]
    omega
  | succ rem ih =>
    intro dist acc hacc
    by_cases hcell : e (torus_adj w h (x + dist, y)) = true
    · by_cases hstop : acc + 1 = s
      · have : min s (acc + (specConsecutiveEmpty w h e x y (dist + 1) rem + 1)) = s := by
          omega
        simp [gapLoop, specConsecutiveEmpty, hcell, hstop, this]
      · have hlt : acc + 1 < s := by omega
        have := ih (dist + 1) (acc + 1) hlt
        simp only [gapLoop, specConsecutiveEmpty, hcell, if_true, hstop, if_false]
        rw [this]
        omega
    · simp [gapLoop, specConsecutiveEmpty, hcell]
      omega

/-- If every cell in the scan window is empty, the consecutive-empty
count is the full window. -/
theorem specConsecutiveEmpty_all (w h : Nat) (e : Pos → Bool) (x y : Nat) :
    ∀ (rem dist : Nat),
      (∀ k, dist ≤ k → k < dist + rem → e (torus_adj w h (x + k, y)) = true) →
      specConsecutiveEmpty w h e x y dist rem = rem := by
  intro rem
  induction rem with
  | zero => intro dist _; rfl
  | succ rem ih =>
    intro dist hall
    have hcell : e (torus_adj w h (x + dist, y)) = true := hall dist (Nat.le_refl _) (by omega)
    have := ih (dist + 1) (fun k hk1 hk2 => hall k (by omega) (by omega))
    simp [specConsecutiveEmpty, hcell, this]

/-- Lemma: `accelerate` under the speed invariant is `min (speed + 1) max_speed`. -/
theorem accelerate_eq_min (v : VehicleAgent) (hv : v.speed ≤ v.max_speed) :
    accelerate v = min (v.speed + 1) v.max_speed := by
  unfold accelerate
  split <;> omega

/-- The tentative speed is positive whenever `max_speed` is. -/
theorem accelerate_pos (v : VehicleAgent) (hv : v.speed ≤ v.max_speed)
    (hm : 0 < v.max_speed) : 0 < accelerate v := by
  unfold accelerate
  split <;> omega

/-- Lemma: `distance_to_next` at the tentative speed is `min` of tentative speed
and the consecutive-empty count, under the speed invariant. -/
theorem distance_to_next_eq_min (w h : Nat) (e : Pos → Bool) (v : VehicleAgent)
    (hv : v.speed ≤ v.max_speed) :
    distance_to_next w h e v (accelerate v) =
      min (accelerate v) (specConsecutiveEmpty w h e v.pos.1 v.pos.2 1 v.max_speed) := by
  rcases Nat.eq_zero_or_pos v.max_speed with hm | hm
  · have hs : v.speed = 0 := by omega
    unfold distance_to_next accelerate
    rw [hm, hs]
    simp [gapLoop, specConsecutiveEmpty, hm]
  · have hpos := accelerate_pos v hv hm
    unfold distance_to_next
    have := gapLoop_eq_min w h e v.pos.1 v.pos.2 (accelerate v) v.max_speed 1 0 hpos
    rw [this]
    simp

/-! ### Per-vehicle step facts -/

/-- Lemma: `is_cell_empty` is true exactly when no listed agent sits at `p`. -/
theorem is_cell_empty_iff (vs : List VehicleAgent) (p : Pos) :
    is_cell_empty vs p = true ↔ ∀ v ∈ vs, v.pos ≠ p := by
  simp [is_cell_empty, List.any_eq_true]

/-- A cell holding a listed agent is not empty. -/
theorem is_cell_empty_of_mem (vs : List VehicleAgent) (v : VehicleAgent)
    (hv : v ∈ vs) : is_cell_empty vs v.pos = false := by
  by_contra hne
  have : is_cell_empty vs v.pos = true := by
    cases h : is_cell_empty vs v.pos
    · exact absurd h hne
    · rfl
  exact ((is_cell_empty_iff vs v.pos).mp this v hv) rfl

/-- The committed speed of a step never exceeds the gap-check result. -/
theorem vehicleStep_speed_le_gap (w h : Nat) (e : Pos → Bool) (b : Bool)
    (v : VehicleAgent) :
    (vehicleStep w h e b v).speed ≤ distance_to_next w h e v (accelerate v) := by
  unfold vehicleStep
  dsimp only
  split <;> omega

/-- Every cell within the committed speed's reach, starting one ahead,
is empty in the pre-step configuration. -/
theorem vehicleStep_speed_empty (w h : Nat) (e : Pos → Bool) (b : Bool)
    (v : VehicleAgent) :
    ∀ k, 1 ≤ k → k ≤ (vehicleStep w h e b v).speed →
      e (torus_adj w h (v.pos.1 + k, v.pos.2)) = true := by
  intro k hk1 hk2
  have hle := vehicleStep_speed_le_gap w h e b v
  have hprops := gapLoop_props w h e v.pos.1 v.pos.2 (accelerate v) v.max_speed 1 0
  obtain ⟨_, _, hempty⟩ := hprops
  have hkd : k - 1 < distance_to_next w h e v (accelerate v) - 0 := by
    unfold distance_to_next
    unfold distance_to_next at hle
    omega
  have := hempty (k - 1) hkd
  have harg : v.pos.1 + 1 + (k - 1) = v.pos.1 + k := by omega
  rwa [harg] at this

/-- The committed position of a full step (compute then advance). -/
theorem advance_step_pos (w h : Nat) (e : Pos → Bool) (b : Bool) (v : VehicleAgent) :
    (vehicleAdvance (vehicleStep w h e b v)).pos =
      ((v.pos.1 + (vehicleStep w h e b v).speed) % w, v.pos.2 % h) := by
  rfl

/-- A step never changes the stored position or `max_speed` of the agent
during the compute phase. -/
theorem vehicleStep_pos_max (w h : Nat) (e : Pos → Bool) (b : Bool) (v : VehicleAgent) :
    (vehicleStep w h e b v).pos = v.pos ∧
    (vehicleStep w h e b v).max_speed = v.max_speed := by
  exact ⟨rfl, rfl⟩

/-- Speed bound through one compute step (the C3 chain): under the
invariant, acceleration, gap check and braking all stay within
`max_speed`. -/
theorem vehicleStep_speed_le_max (w h : Nat) (e : Pos → Bool) (b : Bool)
    (v : VehicleAgent) :
    (vehicleStep w h e b v).speed ≤ v.max_speed := by
  have hle := vehicleStep_speed_le_gap w h e b v
  have hgap : distance_to_next w h e v (accelerate v) ≤ v.max_speed := by
    unfold distance_to_next
    have := (gapLoop_props w h e v.pos.1 v.pos.2 (accelerate v) v.max_speed 1 0).2.1
    omega
  omega

/-- The gap-check result never exceeds the tentative speed (under the
invariant). -/
theorem distance_to_next_le_tentative (w h : Nat) (e : Pos → Bool)
    (v : VehicleAgent) (hv : v.speed ≤ v.max_speed) :
    distance_to_next w h e v (accelerate v) ≤ accelerate v := by
  rw [distance_to_next_eq_min w h e v hv]
  exact Nat.min_le_left _ _

/-! ### The no-collision (ring) argument -/

/-- Directional core of the no-collision argument on the ring `Z_w`:
if the faster (or equal) vehicle's whole forward window is empty while
the other vehicle's cell is occupied, their destinations differ. -/
theorem ring_dest_ne_of_le (w x₁ x₂ s₁ s₂ : Nat) (e : Nat → Bool)
    (hx₁ : x₁ < w) (hx₂ : x₂ < w) (hne : x₁ ≠ x₂) (hle : s₁ ≤ s₂)
    (h₂ : ∀ k, 1 ≤ k → k ≤ s₂ → e ((x₂ + k) % w) = true)
    (ho₁ : e x₁ = false) :
    (x₁ + s₁) % w ≠ (x₂ + s₂) % w := by
  intro heq
  set k := s₂ - s₁ with hk
  have hsplit : x₂ + s₂ = (x₂ + k) + s₁ := by omega
  rw [hsplit] at heq
  have hmod : x₁ ≡ x₂ + k [MOD w] := Nat.ModEq.add_right_cancel' s₁ heq
  have hx : x₁ = (x₂ + k) % w := by
    have := hmod
    unfold Nat.ModEq at this
    rwa [Nat.mod_eq_of_lt hx₁] at this
  rcases Nat.eq_zero_or_pos k with hk0 | hkpos
  · rw [hk0, Nat.add_zero, Nat.mod_eq_of_lt hx₂] at hx
    exact hne hx
  · have hkle : k ≤ s₂ := by omega
    have := h₂ k hkpos hkle
    rw [← hx] at this
    rw [ho₁] at this
    exact Bool.false_ne_true this

/-- Symmetric form of the no-collision argument. -/
theorem ring_dest_ne (w x₁ x₂ s₁ s₂ : Nat) (e : Nat → Bool)
    (hx₁ : x₁ < w) (hx₂ : x₂ < w) (hne : x₁ ≠ x₂)
    (h₁ : ∀ k, 1 ≤ k → k ≤ s₁ → e ((x₁ + k) % w) = true)
    (h₂ : ∀ k, 1 ≤ k → k ≤ s₂ → e ((x₂ + k) % w) = true)
    (ho₁ : e x₁ = false) (ho₂ : e x₂ = false) :
    (x₁ + s₁) % w ≠ (x₂ + s₂) % w := by
  rcases Nat.le_total s₁ s₂ with hle | hle
  · exact ring_dest_ne_of_le w x₁ x₂ s₁ s₂ e hx₁ hx₂ hne hle h₂ ho₁
  · exact fun heq =>
      (ring_dest_ne_of_le w x₂ x₁ s₂ s₁ e hx₂ hx₁ (Ne.symm hne) hle h₁ ho₂) heq.symm

/-- Two distinct agents of the same configuration have distinct committed
destinations: the lifted no-collision argument. -/
theorem step_dest_ne (w h : Nat) (all : List VehicleAgent) (v u : VehicleAgent)
    (bv bu : Bool) (hv : v ∈ all) (hu : u ∈ all)
    (hvx : v.pos.1 < w) (hvy : v.pos.2 < h)
    (hux : u.pos.1 < w) (huy : u.pos.2 < h)
    (hne : v.pos ≠ u.pos) :
    (vehicleAdvance (vehicleStep w h (is_cell_empty all) bv v)).pos ≠
      (vehicleAdvance (vehicleStep w h (is_cell_empty all) bu u)).pos := by
  rw [advance_step_pos, advance_step_pos]
  rw [Nat.mod_eq_of_lt hvy, Nat.mod_eq_of_lt huy]
  by_cases hy : v.pos.2 = u.pos.2
  · -- Same lane: apply the ring argument on the x axis.
    have hxne : v.pos.1 ≠ u.pos.1 := by
      intro hxeq
      exact hne (Prod.ext hxeq hy)
    intro heq
    have hxeq : (v.pos.1 + (vehicleStep w h (is_cell_empty all) bv v).speed) % w =
        (u.pos.1 + (vehicleStep w h (is_cell_empty all) bu u).speed) % w := by
      exact congrArg Prod.fst heq
    refine ring_dest_ne w v.pos.1 u.pos.1
      (vehicleStep w h (is_cell_empty all) bv v).speed
      (vehicleStep w h (is_cell_empty all) bu u).speed
      (fun t => is_cell_empty all (t, v.pos.2)) hvx hux hxne ?_ ?_ ?_ ?_ hxeq
    · intro k hk1 hk2
      have := vehicleStep_speed_empty w h (is_cell_empty all) bv v k hk1 hk2
      unfold torus_adj at this
      rwa [Nat.mod_eq_of_lt hvy] at this
    · intro k hk1 hk2
      have := vehicleStep_speed_empty w h (is_cell_empty all) bu u k hk1 hk2
      unfold torus_adj at this
      rw [Nat.mod_eq_of_lt huy] at this
      rw [hy]
      simpa using this
    · have := is_cell_empty_of_mem all v hv
      rwa [show v.pos = (v.pos.1, v.pos.2) from rfl] at this
    · have := is_cell_empty_of_mem all u hu
      rw [hy]
      rwa [show u.pos = (u.pos.1, u.pos.2) from rfl] at this
  · -- Different lanes: the y coordinates stay distinct.
    intro heq
    rw [Prod.mk.injEq] at heq
    exact hy heq.2

/-! ### Phase-level lemmas -/

/-- Every member of the committed list is the full step of some member
of the input list. -/
theorem mem_advanced_compute (w h : Nat) (e : Pos → Bool) (brake : Nat → Bool) :
    ∀ (vs : List VehicleAgent) (i : Nat) (u : VehicleAgent),
      u ∈ advancePhase (computePhase w h e brake i vs) →
      ∃ v ∈ vs, ∃ j, u = vehicleAdvance (vehicleStep w h e (brake j) v) := by
  intro vs
  induction vs with
  | nil => intro i u hu; simp [computePhase, advancePhase] at hu
  | cons v vs ih =>
    intro i u hu
    simp only [computePhase, advancePhase, List.map_cons, List.mem_cons] at hu
    rcases hu with hu | hu
    · exact ⟨v, List.mem_cons_self v vs, i, hu⟩
    · obtain ⟨v', hv', j, hj⟩ := ih (i + 1) u hu
      exact ⟨v', List.mem_cons_of_mem v hv', j, hj⟩

/-- The committed list after one model step has pairwise distinct
positions, provided the input positions are pairwise distinct and
normalized. -/
theorem advanced_pairwise (w h : Nat) (all : List VehicleAgent) (brake : Nat → Bool)
    (hnorm : ∀ v ∈ all, v.pos.1 < w ∧ v.pos.2 < h) :
    ∀ (vs : List VehicleAgent) (i : Nat), (∀ v ∈ vs, v ∈ all) →
      vs.Pairwise (fun a b => a.pos ≠ b.pos) →
      (advancePhase (computePhase w h (is_cell_empty all) brake i vs)).Pairwise
        (fun a b => a.pos ≠ b.pos) := by
  intro vs
  induction vs with
  | nil => intro i _ _; simp [computePhase, advancePhase]
  | cons v vs ih =>
    intro i hsub hpw
    rw [List.pairwise_cons] at hpw
    obtain ⟨hhead, htail⟩ := hpw
    simp only [computePhase, advancePhase, List.map_cons]
    rw [List.pairwise_cons]
    constructor
    · intro u hu
      obtain ⟨v', hv', j, hj⟩ := mem_advanced_compute w h (is_cell_empty all) brake vs (i + 1) u hu
      rw [hj]
      have hvall : v ∈ all := hsub v (List.mem_cons_self v vs)
      have hv'all : v' ∈ all := hsub v' (List.mem_cons_of_mem v hv')
      have hvn := hnorm v hvall
      have hv'n := hnorm v' hv'all
      exact step_dest_ne w h all v v' (brake i) (brake j) hvall hv'all
        hvn.1 hvn.2 hv'n.1 hv'n.2 (hhead v' hv')
    · exact ih (i + 1) (fun u hu => hsub u (List.mem_cons_of_mem v hu)) htail

/-- Committed positions stay normalized. -/
theorem advanced_norm (w h : Nat) (e : Pos → Bool) (brake : Nat → Bool)
    (vs : List VehicleAgent) (i : Nat)
    (hnorm : ∀ v ∈ vs, v.pos.1 < w ∧ v.pos.2 < h) :
    ∀ u ∈ advancePhase (computePhase w h e brake i vs),
      u.pos.1 < w ∧ u.pos.2 < h := by
  intro u hu
  obtain ⟨v, hv, j, hj⟩ := mem_advanced_compute w h e brake vs i u hu
  have hvn := hnorm v hv
  rw [hj, advance_step_pos]
  constructor
  · exact Nat.mod_lt _ (by omega)
  · exact Nat.mod_lt _ (by omega)

/-- A full step preserves each agent's speed invariant. -/
theorem advanced_speed_le (w h : Nat) (e : Pos → Bool) (brake : Nat → Bool)
    (vs : List VehicleAgent) (i : Nat) :
    ∀ u ∈ advancePhase (computePhase w h e brake i vs), u.speed ≤ u.max_speed := by
  intro u hu
  obtain ⟨v, hv, j, hj⟩ := mem_advanced_compute w h e brake vs i u hu
  rw [hj]
  have h1 := vehicleStep_speed_le_max w h e (brake j) v
  have h2 : (vehicleAdvance (vehicleStep w h e (brake j) v)).speed =
      (vehicleStep w h e (brake j) v).speed := rfl
  have h3 : (vehicleAdvance (vehicleStep w h e (brake j) v)).max_speed =
      v.max_speed := rfl
  omega

/-- The advance phase does not change speeds. -/
theorem advancePhase_speeds (vs : List VehicleAgent) :
    (advancePhase vs).map (fun v => v.speed) = vs.map (fun v => v.speed) := by
  unfold advancePhase
  rw [List.map_map]
  rfl

/-- The y coordinates of the committed list equal those of the input,
in order, when the input is normalized. -/
theorem advanced_ys (w h : Nat) (e : Pos → Bool) (brake : Nat → Bool) :
    ∀ (vs : List VehicleAgent) (i : Nat),
      (∀ v ∈ vs, v.pos.2 < h) →
      (advancePhase (computePhase w h e brake i vs)).map (fun v => v.pos.2) =
        vs.map (fun v => v.pos.2) := by
  intro vs
  induction vs with
  | nil => intro i _; rfl
  | cons v vs ih =>
    intro i hy
    have hvy : v.pos.2 < h := hy v (List.mem_cons_self v vs)
    simp only [computePhase, advancePhase, List.map_cons]
    refine congrArg₂ List.cons ?_ ?_
    · rw [show (vehicleAdvance (vehicleStep w h e (brake i) v)).pos =
        ((v.pos.1 + (vehicleStep w h e (brake i) v).speed) % w, v.pos.2 % h) from
          advance_step_pos w h e (brake i) v]
      exact Nat.mod_eq_of_lt hvy
    · exact ih (i + 1) (fun u hu => hy u (List.mem_cons_of_mem v hu))

/-! ### Model-level invariants -/

/-- The grid invariant: pairwise distinct, normalized agent positions. -/
def GoodState (s : NaSchState) : Prop :=
  s.vehicles.Pairwise (fun a b => a.pos ≠ b.pos) ∧
  ∀ v ∈ s.vehicles, v.pos.1 < s.width ∧ v.pos.2 < s.height

/-- The speed invariant over all agents. -/
def SpeedOk (s : NaSchState) : Prop :=
  ∀ v ∈ s.vehicles, v.speed ≤ v.max_speed

theorem modelStep_width (seed : Seed) (s : NaSchState) :
    (modelStep seed s).width = s.width := rfl

theorem modelStep_height (seed : Seed) (s : NaSchState) :
    (modelStep seed s).height = s.height := rfl

theorem modelStep_steps (seed : Seed) (s : NaSchState) :
    (modelStep seed s).steps = s.steps + 1 := rfl

theorem modelStep_running (seed : Seed) (s : NaSchState) :
    (modelStep seed s).running = if s.steps = 100 then false else s.running := rfl

theorem modelStep_vehicles (seed : Seed) (s : NaSchState) :
    (modelStep seed s).vehicles =
      advancePhase (computePhase s.width s.height (is_cell_empty s.vehicles)
        (fun i => decide (seed.rand i < pBrake)) s.drawIdx s.vehicles) := rfl

theorem modelStep_averages (seed : Seed) (s : NaSchState) :
    (modelStep seed s).averages = s.averages ++ [(modelStep seed s).average_speed] := rfl

/-- One model step preserves the grid invariant. -/
theorem modelStep_good (seed : Seed) (s : NaSchState) (hg : GoodState s) :
    GoodState (modelStep seed s) := by
  obtain ⟨hpw, hnorm⟩ := hg
  constructor
  · rw [modelStep_vehicles]
    exact advanced_pairwise s.width s.height s.vehicles _ hnorm s.vehicles s.drawIdx
      (fun v hv => hv) hpw
  · rw [modelStep_vehicles, modelStep_width, modelStep_height]
    exact advanced_norm s.width s.height _ _ s.vehicles s.drawIdx hnorm

/-- One model step preserves the speed invariant. -/
theorem modelStep_speedOk (seed : Seed) (s : NaSchState) :
    SpeedOk (modelStep seed s) := by
  intro v hv
  rw [modelStep_vehicles] at hv
  exact advanced_speed_le s.width s.height _ _ s.vehicles s.drawIdx v hv

/-- Iterated steps preserve the grid invariant. -/
theorem iterate_good (seed : Seed) (s : NaSchState) (hg : GoodState s) :
    ∀ n, GoodState (((modelStep seed)^[n]) s) := by
  intro n
  induction n with
  | zero => exact hg
  | succ n ih =>
    rw [Function.iterate_succ_apply']
    exact modelStep_good seed _ ih

/-- Iterated steps preserve the speed invariant. -/
theorem iterate_speedOk (seed : Seed) (s : NaSchState) (h0 : SpeedOk s) :
    ∀ n, SpeedOk (((modelStep seed)^[n]) s) := by
  intro n
  cases n with
  | zero => exact h0
  | succ n =>
    rw [Function.iterate_succ_apply']
    exact modelStep_speedOk seed _

theorem steps_iterate (seed : Seed) (s : NaSchState) :
    ∀ n, (((modelStep seed)^[n]) s).steps = s.steps + n := by
  intro n
  induction n with
  | zero => rfl
  | succ n ih =>
    rw [Function.iterate_succ_apply', modelStep_steps, ih]
    omega

/-- The running flag survives the first 100 steps of a fresh run. -/
theorem running_iterate_true (seed : Seed) (s : NaSchState)
    (h0 : s.steps = 0) (hr : s.running = true) :
    ∀ n, n ≤ 100 → (((modelStep seed)^[n]) s).running = true := by
  intro n
  induction n with
  | zero => intro _; exact hr
  | succ n ih =>
    intro hn
    rw [Function.iterate_succ_apply', modelStep_running]
    have hsteps : (((modelStep seed)^[n]) s).steps = n := by
      rw [steps_iterate, h0]; omega
    have hne : (((modelStep seed)^[n]) s).steps ≠ 100 := by omega
    rw [if_neg hne]
    exact ih (by omega)

/-- From the 101st step on, the running flag is false. -/
theorem running_iterate_false (seed : Seed) (s : NaSchState) (h0 : s.steps = 0) :
    ∀ n, 101 ≤ n → (((modelStep seed)^[n]) s).running = false := by
  intro n hn
  induction n with
  | zero => omega
  | succ n ih =>
    rw [Function.iterate_succ_apply', modelStep_running]
    have hsteps : (((modelStep seed)^[n]) s).steps = n := by
      rw [steps_iterate, h0]; omega
    by_cases h100 : n = 100
    · rw [if_pos (by omega)]
    · rw [if_neg (by omega)]
      exact ih (by omega)

/-- The host-loop call count is determined by the first step at which
`running` turns false. -/
theorem hostLoop_count (seed : Seed) :
    ∀ (fuel m : Nat) (s : NaSchState),
      (∀ k, k < m → (((modelStep seed)^[k]) s).running = true) →
      (((modelStep seed)^[m]) s).running = false →
      m ≤ fuel → (hostLoop seed fuel s).2 = m := by
  intro fuel
  induction fuel with
  | zero =>
    intro m s _ _ hm
    have : m = 0 := by omega
    subst this
    rfl
  | succ fuel ih =>
    intro m s htrue hfalse hm
    cases m with
    | zero =>
      have : s.running = false := hfalse
      simp [hostLoop, this]
    | succ m =>
      have hrun : s.running = true := htrue 0 (by omega)
      have hstep : ∀ k, k < m →
          (((modelStep seed)^[k]) (modelStep seed s)).running = true := by
        intro k hk
        rw [← Function.iterate_succ_apply]
        exact htrue (k + 1) (by omega)
      have hstepf : (((modelStep seed)^[m]) (modelStep seed s)).running = false := by
        rw [← Function.iterate_succ_apply]
        exact hfalse
      have := ih m (modelStep seed s) hstep hstepf (by omega)
      simp [hostLoop, hrun, this]

/-! ### The shuffle is a permutation; initial-state invariants -/

theorem get?_some_lt {α : Type} : ∀ (l : List α) (i : Nat) (a : α),
    l.get? i = some a → i < l.length := by
  intro l
  induction l with
  | nil => intro i a h; simp at h
  | cons x l ih =>
    intro i a h
    cases i with
    | zero => simp
    | succ i =>
      have := ih i a h
      simp
      omega

theorem get?_set_other {α : Type} : ∀ (l : List α) (i j : Nat) (b : α), i ≠ j →
    (l.set i b).get? j = l.get? j := by
  intro l
  induction l with
  | nil => intro i j b _; simp
  | cons x l ih =>
    intro i j b hij
    cases i with
    | zero =>
      cases j with
      | zero => exact absurd rfl hij
      | succ j => rfl
    | succ i =>
      cases j with
      | zero => rfl
      | succ j => exact ih i j b (by omega)

theorem get?_set_self {α : Type} : ∀ (l : List α) (i : Nat) (b : α), i < l.length →
    (l.set i b).get? i = some b := by
  intro l
  induction l with
  | nil => intro i b h; simp at h
  | cons x l ih =>
    intro i b h
    cases i with
    | zero => rfl
    | succ i =>
      exact ih i b (by simpa using h)

/-- Replacing the element at a known index trades one occurrence count
for another. -/
theorem count_set_add {α : Type} [DecidableEq α] (x a b : α) :
    ∀ (l : List α) (i : Nat), l.get? i = some a →
      (l.set i b).count x + (if a = x then 1 else 0) =
        l.count x + (if b = x then 1 else 0) := by
  intro l
  induction l with
  | nil => intro i h; simp at h
  | cons c t ih =>
    intro i h
    cases i with
    | zero =>
      have hca : c = a := by simpa using h
      subst hca
      simp only [List.set, List.count_cons, beq_iff_eq]
      split_ifs <;> omega
    | succ i =>
      have hih := ih i h
      simp only [List.set, List.count_cons, beq_iff_eq]
      split_ifs at hih ⊢ <;> omega

/-- One Python swap is a permutation. -/
theorem swapAt_perm {α : Type} [DecidableEq α] (l : List α) (i j : Nat) :
    (swapAt l i j).Perm l := by
  unfold swapAt
  cases hi : l.get? i with
  | none => exact List.Perm.refl _
  | some a =>
    cases hj : l.get? j with
    | none => exact List.Perm.refl _
    | some b =>
      simp only
      rw [List.perm_iff_count]
      intro x
      have h1 := count_set_add x a b l i hi
      have hjb : (l.set i b).get? j = some b := by
        by_cases hij : i = j
        · subst hij
          exact get?_set_self l i b (get?_some_lt l i a hi)
        · rw [get?_set_other l i j b hij]
          exact hj
      have h2 := count_set_add x b a (l.set i b) j hjb
      split_ifs at h1 h2 <;> omega

/-- The Fisher–Yates loop is a permutation. -/
theorem fyAux_perm {α : Type} [DecidableEq α] (below : Nat → Nat) :
    ∀ (i c : Nat) (l : List α), (fyAux below c i l).Perm l := by
  intro i
  induction i with
  | zero => intro c l; exact List.Perm.refl _
  | succ i ih =>
    intro c l
    exact (ih (c + 1) _).trans (swapAt_perm l (i + 1) (below c % (i + 2)))

/-- Python's `random.shuffle` permutes the cell list. -/
theorem pyShuffle_perm {α : Type} [DecidableEq α] (below : Nat → Nat) (l : List α) :
    (pyShuffle below l).Perm l :=
  fyAux_perm below (l.length - 1) 0 l

/-- The grid's cell list has no duplicates. -/
theorem coordCells_nodup (width height : Nat) : (coordCells width height).Nodup :=
  (List.nodup_range width).product (List.nodup_range height)

/-- The grid's cell list enumerates `width * height` cells. -/
theorem coordCells_length (width height : Nat) :
    (coordCells width height).length = width * height := by
  unfold coordCells
  rw [show (List.range width).product (List.range height) =
    (List.range width) ×ˢ (List.range height) from rfl]
  rw [List.length_product, List.length_range, List.length_range]

/-- Cells of the grid list are in range. -/
theorem coordCells_mem (width height : Nat) (p : Pos) (hp : p ∈ coordCells width height) :
    p.1 < width ∧ p.2 < height := by
  unfold coordCells at hp
  rw [show (List.range width).product (List.range height) =
    (List.range width) ×ˢ (List.range height) from rfl] at hp
  rcases p with ⟨x, y⟩
  rw [List.mem_product] at hp
  simpa [List.mem_range] using hp

/-- Initialization succeeds exactly when the vehicle count fits the grid
capacity. -/
theorem initModel_isSome_iff (height width vehicle_quantity general_max_speed : Nat)
    (seed : Seed) :
    (initModel height width vehicle_quantity general_max_speed seed).isSome = true ↔
      vehicle_quantity ≤ width * height := by
  unfold initModel
  dsimp only
  have hlen : (pyShuffle seed.below (coordCells width height)).length = width * height := by
    rw [(pyShuffle_perm seed.below (coordCells width height)).length_eq]
    exact coordCells_length width height
  rw [hlen]
  split <;> simp_all

/-- A successful initialization yields the grid invariant. -/
theorem initModel_good (height width vehicle_quantity general_max_speed : Nat)
    (seed : Seed) (st : NaSchState)
    (hinit : initModel height width vehicle_quantity general_max_speed seed = some st) :
    GoodState st ∧ SpeedOk st ∧ st.steps = 0 ∧ st.running = true ∧
      st.width = width ∧ st.height = height := by
  unfold initModel at hinit
  dsimp only at hinit
  set cells := pyShuffle seed.below (coordCells width height) with hcells
  by_cases hle : vehicle_quantity ≤ cells.length
  · rw [if_pos hle] at hinit
    have hst := (Option.some.injEq _ _).mp hinit
    subst hst
    have hperm := pyShuffle_perm seed.below (coordCells width height)
    have hnodup : cells.Nodup := hperm.nodup_iff.mpr (coordCells_nodup width height)
    have htake : (cells.take vehicle_quantity).Nodup :=
      hnodup.sublist (List.take_sublist _ _)
    refine ⟨⟨?_, ?_⟩, ?_, rfl, rfl, rfl, rfl⟩
    · rw [List.pairwise_map]
      refine htake.imp ?_
      intro a b hab
      simpa using hab
    · intro v hv
      rw [List.mem_map] at hv
      obtain ⟨c, hc, hvc⟩ := hv
      have hcmem : c ∈ coordCells width height :=
        hperm.mem_iff.mp (List.mem_of_mem_take hc)
      have := coordCells_mem width height c hcmem
      rw [← hvc]
      exact this
    · intro v hv
      rw [List.mem_map] at hv
      obtain ⟨c, _, hvc⟩ := hv
      rw [← hvc]
      exact Nat.zero_le _
  · rw [if_neg hle] at hinit
    exact absurd hinit (by simp)

/-! ### Concrete runs used by witnesses and counterexamples -/

/-- A seed whose braking draws are all `1` (never below `0.3`, so no
random braking) and whose shuffle draws are all `0`. -/
def seedNoBrake : Seed := { below := fun _ => 0, rand := fun _ => 1 }

/-- A no-braking seed whose shuffle draws leave a 60-cell list unchanged
(every Fisher–Yates swap is `swap i i`). -/
def seedKeep60 : Seed := { below := fun c => 59 - c, rand := fun _ => 1 }

/-- A no-braking seed whose shuffle draws leave a 2-cell list unchanged. -/
def seedKeep2 : Seed := { below := fun _ => 1, rand := fun _ => 1 }

/-- A no-braking seed whose shuffle draws leave a 3-cell list unchanged. -/
def seedKeep3 : Seed := { below := fun c => 2 - c, rand := fun _ => 1 }

/-- Fallback state, used only to strip `Option` from concrete successful runs. -/
def fallbackState : NaSchState :=
  { width := 0, height := 0, vehicle_quantity := 0, general_max_speed := 0,
    vehicles := [], steps := 0, running := false, total_speed := 0,
    average_speed := 0, averages := [], drawIdx := 0 }

/-- Concrete run: a 1×1 grid with no vehicles. -/
def stZero : NaSchState := (initModel 1 1 0 4 seedNoBrake).getD fallbackState

/-- Concrete run: width-2 lane, one vehicle at `(0,0)`, `max_speed = 4`. -/
def stW2 : NaSchState := (initModel 1 2 1 4 seedKeep2).getD fallbackState

/-- Concrete run: width-60 lane, one vehicle at `(0,0)`, `max_speed = 4`
(the spec's lone-vehicle scenario). -/
def stW60 : NaSchState := (initModel 1 60 1 4 seedKeep60).getD fallbackState

/-- Concrete run: width-3 lane, two vehicles, `max_speed = 2`. -/
def stW3 : NaSchState := (initModel 1 3 2 2 seedKeep3).getD fallbackState

/-- The state of the no-vehicle run after 101 `step()` calls (the first
state whose `running` flag is false). -/
def stAfter101 : NaSchState := ((modelStep seedNoBrake)^[101]) stZero

/-! ### Claim theorems -/

/-- C1: for every vehicle in every step, under the speed invariant, the
post-gap-check speed equals the minimum of the tentative
post-acceleration speed and the number of consecutive empty cells
immediately ahead (scanned with toroidal wraparound, starting one cell
ahead, up to `max_speed` cells); in particular it never exceeds that
consecutive-empty count.  (Speeds are `Nat`, so `0 ≤ speed` throughout.) -/
theorem gap_check_eq_min (w h : Nat) (e : Pos → Bool) (v : VehicleAgent)
    (hinv : v.speed ≤ v.max_speed) :
    distance_to_next w h e v (accelerate v) =
      min (accelerate v) (specConsecutiveEmpty w h e v.pos.1 v.pos.2 1 v.max_speed) ∧
    distance_to_next w h e v (accelerate v) ≤
      specConsecutiveEmpty w h e v.pos.1 v.pos.2 1 v.max_speed := by
  have hmin := distance_to_next_eq_min w h e v hinv
  exact ⟨hmin, by rw [hmin]; exact Nat.min_le_right _ _⟩

/-- Witness for C1 at a concrete lane, vehicle and occupancy. -/
theorem gap_check_eq_min_witness :
    distance_to_next 10 1 (is_cell_empty [{ pos := (3, 0), speed := 0, max_speed := 4 }])
        { pos := (0, 0), speed := 1, max_speed := 4 }
        (accelerate { pos := (0, 0), speed := 1, max_speed := 4 }) =
      min (accelerate { pos := (0, 0), speed := 1, max_speed := 4 })
        (specConsecutiveEmpty 10 1
          (is_cell_empty [{ pos := (3, 0), speed := 0, max_speed := 4 }]) 0 0 1 4) ∧
    distance_to_next 10 1 (is_cell_empty [{ pos := (3, 0), speed := 0, max_speed := 4 }])
        { pos := (0, 0), speed := 1, max_speed := 4 }
        (accelerate { pos := (0, 0), speed := 1, max_speed := 4 }) ≤
      specConsecutiveEmpty 10 1
        (is_cell_empty [{ pos := (3, 0), speed := 0, max_speed := 4 }]) 0 0 1 4 :=
  gap_check_eq_min 10 1 (is_cell_empty [{ pos := (3, 0), speed := 0, max_speed := 4 }])
    { pos := (0, 0), speed := 1, max_speed := 4 } (by decide)

/-- C2: in every reachable state of a successfully initialized run (the
initial placement included), vehicle positions are pairwise distinct:
the shuffled sampling places at most one vehicle per cell and the
compute-then-commit step never makes two committed destinations
coincide. -/
theorem positions_pairwise_distinct (height width vehicle_quantity general_max_speed : Nat)
    (seed : Seed) (st : NaSchState) (n : Nat)
    (hinit : initModel height width vehicle_quantity general_max_speed seed = some st) :
    (((modelStep seed)^[n]) st).vehicles.Pairwise (fun a b => a.pos ≠ b.pos) := by
  have hg := (initModel_good height width vehicle_quantity general_max_speed seed st hinit).1
  exact (iterate_good seed st hg n).1

/-- Witness for C2: a 3-cell lane with two vehicles, after two steps. -/
theorem positions_pairwise_distinct_witness :
    (((modelStep seedKeep3)^[2]) stW3).vehicles.Pairwise (fun a b => a.pos ≠ b.pos) :=
  positions_pairwise_distinct 1 3 2 2 seedKeep3 stW3 2 rfl

/-- C3: in every reachable state of a successfully initialized run,
every vehicle satisfies `speed ≤ max_speed` (speeds are `Nat`, hence
also `0 ≤ speed`); moreover, within any single compute step under the
invariant, the post-acceleration, post-gap-check and post-braking speeds
all stay within `max_speed`, and the gap check stays within the
tentative speed. -/
theorem speed_within_bounds (height width vehicle_quantity general_max_speed : Nat)
    (seed : Seed) (st : NaSchState) (n : Nat)
    (hinit : initModel height width vehicle_quantity general_max_speed seed = some st) :
    (∀ v ∈ (((modelStep seed)^[n]) st).vehicles, v.speed ≤ v.max_speed) ∧
    (∀ (w h : Nat) (e : Pos → Bool) (b : Bool) (v : VehicleAgent),
      v.speed ≤ v.max_speed →
      accelerate v ≤ v.max_speed ∧
      distance_to_next w h e v (accelerate v) ≤ accelerate v ∧
      distance_to_next w h e v (accelerate v) ≤ v.max_speed ∧
      (vehicleStep w h e b v).speed ≤ v.max_speed) := by
  constructor
  · have hok := (initModel_good height width vehicle_quantity general_max_speed
      seed st hinit).2.1
    exact iterate_speedOk seed st hok n
  · intro w h e b v hv
    have hacc : accelerate v ≤ v.max_speed := by
      rw [accelerate_eq_min v hv]
      exact Nat.min_le_right _ _
    have hgap := distance_to_next_le_tentative w h e v hv
    exact ⟨hacc, hgap, Nat.le_trans hgap hacc, vehicleStep_speed_le_max w h e b v⟩

/-- Witness for C3: the 3-cell two-vehicle run after two steps, and the
single-step chain at a concrete vehicle. -/
theorem speed_within_bounds_witness :
    (∀ v ∈ (((modelStep seedKeep3)^[2]) stW3).vehicles, v.speed ≤ v.max_speed) ∧
    (∀ (w h : Nat) (e : Pos → Bool) (b : Bool) (v : VehicleAgent),
      v.speed ≤ v.max_speed →
      accelerate v ≤ v.max_speed ∧
      distance_to_next w h e v (accelerate v) ≤ accelerate v ∧
      distance_to_next w h e v (accelerate v) ≤ v.max_speed ∧
      (vehicleStep w h e b v).speed ≤ v.max_speed) :=
  speed_within_bounds 1 3 2 2 seedKeep3 stW3 2 rfl

/-- C4 counterexample: initialization with a non-positive max speed (0)
does not fail — there is no `InvalidConfigurationError` anywhere in the
code — and the simulation does enter the Running state. -/
theorem init_zero_max_speed_runs :
    (initModel 1 60 5 0 seedNoBrake).map (fun st => st.running) = some true := by
  decide

/-- C4 amended: construction fails (with an uncaught `IndexError`,
modelled as `none`) exactly when the vehicle count exceeds the
`width * height` cell capacity; no other configuration is validated, and
every successful construction sets `running = true` — in particular
non-positive max speed never prevents Running. -/
theorem init_succeeds_iff_capacity (height width vehicle_quantity general_max_speed : Nat)
    (seed : Seed) :
    ((initModel height width vehicle_quantity general_max_speed seed).isSome = true ↔
      vehicle_quantity ≤ width * height) ∧
    (∀ st, initModel height width vehicle_quantity general_max_speed seed = some st →
      st.running = true) := by
  refine ⟨initModel_isSome_iff height width vehicle_quantity general_max_speed seed, ?_⟩
  intro st hinit
  exact (initModel_good height width vehicle_quantity general_max_speed seed st hinit).2.2.2.1

/-- Witness for C4 (amended) at the reference configuration with
`max_speed = 0`. -/
theorem init_succeeds_iff_capacity_witness :
    ((initModel 1 60 5 0 seedNoBrake).isSome = true ↔ 5 ≤ 60 * 1) ∧
    (∀ st, initModel 1 60 5 0 seedNoBrake = some st → st.running = true) :=
  init_succeeds_iff_capacity 1 60 5 0 seedNoBrake

/-- C5 counterexample: a reachable state with `running = false` (the
no-vehicle run after 101 calls) on which `step()` is not rejected: the
call is no failure and no no-op — it increments `schedule.steps` and
appends to the averages record. -/
theorem step_when_stopped_cex :
    stAfter101.running = false ∧
    (modelStep seedNoBrake stAfter101).steps = stAfter101.steps + 1 ∧
    (modelStep seedNoBrake stAfter101).averages.length =
      stAfter101.averages.length + 1 := by
  refine ⟨?_, rfl, ?_⟩
  · exact running_iterate_false seedNoBrake stZero rfl 101 (by omega)
  · rw [modelStep_averages]
    simp

/-- C5 amended: `step()` never examines the running flag: every call,
in particular one made while `running` is false, performs the full
update — `schedule.steps` increments, an average is appended, and the
vehicles are processed by the usual compute-then-commit phases — so
such calls are uniformly processed, never rejected. -/
theorem step_ignores_running_flag (seed : Seed) (s : NaSchState)
    (_hr : s.running = false) :
    (modelStep seed s).steps = s.steps + 1 ∧
    (modelStep seed s).averages.length = s.averages.length + 1 ∧
    (modelStep seed s).vehicles =
      advancePhase (computePhase s.width s.height (is_cell_empty s.vehicles)
        (fun i => decide (seed.rand i < pBrake)) s.drawIdx s.vehicles) := by
  refine ⟨rfl, ?_, rfl⟩
  rw [modelStep_averages]
  simp

/-- Witness for C5 (amended) at the stopped state of the no-vehicle run. -/
theorem step_ignores_running_flag_witness :
    (modelStep seedNoBrake stAfter101).steps = stAfter101.steps + 1 ∧
    (modelStep seedNoBrake stAfter101).averages.length =
      stAfter101.averages.length + 1 ∧
    (modelStep seedNoBrake stAfter101).vehicles =
      advancePhase (computePhase stAfter101.width stAfter101.height
        (is_cell_empty stAfter101.vehicles)
        (fun i => decide (seedNoBrake.rand i < pBrake))
        stAfter101.drawIdx stAfter101.vehicles) :=
  step_ignores_running_flag seedNoBrake stAfter101
    (running_iterate_false seedNoBrake stZero rfl 101 (by omega))

/-- C6 counterexample: after 100 `step()` calls of a fresh run,
`schedule.steps` has reached the budget of 100 but `running` is still
true — the flag is not set "as soon as" the budget is reached, and a
host loop will call `step()` again. -/
theorem step_budget_cex :
    (((modelStep seedNoBrake)^[100]) stZero).steps = 100 ∧
    (((modelStep seedNoBrake)^[100]) stZero).running = true := by
  constructor
  · rw [steps_iterate]
    rfl
  · exact running_iterate_true seedNoBrake stZero rfl rfl 100 (by omega)

/-- C6 amended: `running` is set to false only at the start of the 101st
call (the first call entered with `schedule.steps = 100`), and that call
still performs a full step; a host loop calling `step()` while `running`
is true therefore performs exactly 101 steps, not 100. -/
theorem host_loop_performs_101_steps (seed : Seed) (st : NaSchState) (fuel : Nat)
    (h0 : st.steps = 0) (hr : st.running = true) (hf : 101 ≤ fuel) :
    (hostLoop seed fuel st).2 = 101 ∧
    (((modelStep seed)^[100]) st).running = true ∧
    (((modelStep seed)^[101]) st).running = false := by
  refine ⟨?_, running_iterate_true seed st h0 hr 100 (by omega),
    running_iterate_false seed st h0 101 (by omega)⟩
  exact hostLoop_count seed fuel 101 st
    (fun k hk => running_iterate_true seed st h0 hr k (by omega))
    (running_iterate_false seed st h0 101 (by omega)) hf

/-- Witness for C6 (amended) on the concrete no-vehicle run. -/
theorem host_loop_performs_101_steps_witness :
    (hostLoop seedNoBrake 150 stZero).2 = 101 ∧
    (((modelStep seedNoBrake)^[100]) stZero).running = true ∧
    (((modelStep seedNoBrake)^[101]) stZero).running = false :=
  host_loop_performs_101_steps seedNoBrake stZero 150 rfl rfl (by omega)

/-- With no braking draw, the committed speed is exactly the gap-check
result. -/
theorem vehicleStep_speed_no_brake (w h : Nat) (e : Pos → Bool) (v : VehicleAgent) :
    (vehicleStep w h e false v).speed = distance_to_next w h e v (accelerate v) := by
  unfold vehicleStep
  simp

/-- On a lane wider than `max_speed`, a lone vehicle's scan window never
wraps onto its own cell, so the whole window is empty. -/
theorem lone_vehicle_consec (w h : Nat) (v : VehicleAgent)
    (hx : v.pos.1 < w) (hms : v.max_speed < w) :
    specConsecutiveEmpty w h (is_cell_empty [v]) v.pos.1 v.pos.2 1 v.max_speed =
      v.max_speed := by
  apply specConsecutiveEmpty_all
  intro k hk1 hk2
  rw [is_cell_empty_iff]
  intro u hu
  have huv : u = v := by simpa using hu
  subst huv
  unfold torus_adj
  intro hc
  have h1 : u.pos.1 = (u.pos.1 + k) % w := congrArg Prod.fst hc
  have hmod : Nat.ModEq w (u.pos.1 + k) (u.pos.1 + 0) := by
    unfold Nat.ModEq
    rw [Nat.add_zero, ← h1, Nat.mod_eq_of_lt hx]
  have hk0 : Nat.ModEq w k 0 := Nat.ModEq.add_left_cancel' _ hmod
  unfold Nat.ModEq at hk0
  rw [Nat.mod_eq_of_lt (by omega : k < w), Nat.zero_mod] at hk0
  omega

/-- C7 counterexample: on a width-2 lane with `max_speed = 4`, the lone
vehicle's gap scan wraps onto its own occupied cell, so two brake-free
steps leave its speed at 1 where the claim predicts 2 — the speed does
not keep increasing by 1 up to `max_speed`. -/
theorem lone_vehicle_short_lane_cex :
    (((modelStep seedKeep2)^[2]) stW2).vehicles.map (fun v => v.speed) = [1] ∧
    (((modelStep seedKeep2)^[2]) stW2).vehicles.map (fun v => v.speed) ≠ [2] := by
  exact ⟨by decide, by decide⟩

/-- C7 amended: on a lane strictly wider than `max_speed`, the gap scan
(starting one cell ahead, at most `max_speed` cells) never reaches the
lone vehicle's own cell, so a brake-free step raises its speed to
`min (speed + 1) max_speed` and advances it by that amount; concretely,
on the width-60 lane with `max_speed = 4` and start position 0, three
brake-free steps yield speeds 1, 2, 3 and positions 1, 3, 6.  (On lanes
with `width ≤ max_speed` the scan wraps onto the vehicle's own cell and
the claim fails.) -/
theorem lone_vehicle_accelerates (seed : Seed) (s : NaSchState) (v : VehicleAgent)
    (hveh : s.vehicles = [v])
    (hx : v.pos.1 < s.width) (hy : v.pos.2 < s.height)
    (hsp : v.speed ≤ v.max_speed) (hms : v.max_speed < s.width)
    (hbr : decide (seed.rand s.drawIdx < pBrake) = false) :
    ((modelStep seed s).vehicles.map (fun u => (u.pos, u.speed)) =
      [(((v.pos.1 + min (v.speed + 1) v.max_speed) % s.width, v.pos.2),
        min (v.speed + 1) v.max_speed)]) ∧
    (((modelStep seedKeep60)^[1]) stW60).vehicles.map (fun u => (u.pos.1, u.speed)) =
      [(1, 1)] ∧
    (((modelStep seedKeep60)^[2]) stW60).vehicles.map (fun u => (u.pos.1, u.speed)) =
      [(3, 2)] ∧
    (((modelStep seedKeep60)^[3]) stW60).vehicles.map (fun u => (u.pos.1, u.speed)) =
      [(6, 3)] := by
  refine ⟨?_, by decide, by decide, by decide⟩
  have hd : distance_to_next s.width s.height (is_cell_empty [v]) v (accelerate v) =
      min (v.speed + 1) v.max_speed := by
    rw [distance_to_next_eq_min s.width s.height (is_cell_empty [v]) v hsp,
      lone_vehicle_consec s.width s.height v hx hms, accelerate_eq_min v hsp]
    omega
  rw [modelStep_vehicles, hveh]
  have hred : computePhase s.width s.height (is_cell_empty [v])
      (fun i => decide (seed.rand i < pBrake)) s.drawIdx [v] =
      [vehicleStep s.width s.height (is_cell_empty [v]) false v] := by
    unfold computePhase
    rw [hbr]
    rfl
  rw [hred]
  have hpos := advance_step_pos s.width s.height (is_cell_empty [v]) false v
  have hspd : (vehicleAdvance (vehicleStep s.width s.height (is_cell_empty [v]) false v)).speed
      = (vehicleStep s.width s.height (is_cell_empty [v]) false v).speed := rfl
  simp only [advancePhase, List.map_map, List.map_cons, List.map_nil, Function.comp_apply]
  rw [hpos, hspd, vehicleStep_speed_no_brake, hd, Nat.mod_eq_of_lt hy]

/-- Witness for C7 (amended): the width-60 scenario's first step. -/
theorem lone_vehicle_accelerates_witness :
    ((modelStep seedKeep60 stW60).vehicles.map (fun u => (u.pos, u.speed)) =
      [(((0 + min (0 + 1) 4) % 60, 0), min (0 + 1) 4)]) ∧
    (((modelStep seedKeep60)^[1]) stW60).vehicles.map (fun u => (u.pos.1, u.speed)) =
      [(1, 1)] ∧
    (((modelStep seedKeep60)^[2]) stW60).vehicles.map (fun u => (u.pos.1, u.speed)) =
      [(3, 2)] ∧
    (((modelStep seedKeep60)^[3]) stW60).vehicles.map (fun u => (u.pos.1, u.speed)) =
      [(6, 3)] :=
  lone_vehicle_accelerates seedKeep60 stW60
    { pos := (0, 0), speed := 0, max_speed := 4, next_pos := none }
    rfl (by decide) (by decide) (by decide) (by decide) (by decide)

/-- C8: after every `step()` call, `total_speed` is the sum of the
vehicles' post-randomization speeds for that step and `average_speed`
equals `total_speed / vehicle_count` (0 when there are no vehicles); the
value is appended to the averages record, and with no vehicles every
step completes with `average_speed = 0`. -/
theorem average_speed_formula (seed : Seed) (s : NaSchState) :
    (modelStep seed s).total_speed =
      ((modelStep seed s).vehicles.map (fun v => v.speed)).sum ∧
    (modelStep seed s).average_speed =
      (if (modelStep seed s).vehicles.length = 0 then 0
       else ((modelStep seed s).total_speed : ℚ) /
         ((modelStep seed s).vehicles.length : ℚ)) ∧
    (modelStep seed s).averages = s.averages ++ [(modelStep seed s).average_speed] ∧
    (s.vehicles = [] → (modelStep seed s).average_speed = 0) := by
  have hveh := modelStep_vehicles seed s
  have htot : (modelStep seed s).total_speed =
      ((computePhase s.width s.height (is_cell_empty s.vehicles)
        (fun i => decide (seed.rand i < pBrake)) s.drawIdx s.vehicles).map
          (fun v => v.speed)).sum := rfl
  have havg : (modelStep seed s).average_speed =
      (if 0 < (modelStep seed s).vehicles.length then
        ((modelStep seed s).total_speed : ℚ) / ((modelStep seed s).vehicles.length : ℚ)
       else 0) := rfl
  refine ⟨?_, ?_, modelStep_averages seed s, ?_⟩
  · rw [htot, hveh, advancePhase_speeds]
  · rw [havg]
    by_cases hlen : (modelStep seed s).vehicles.length = 0
    · rw [if_pos hlen, if_neg (by omega)]
    · rw [if_neg hlen, if_pos (by omega)]
  · intro hnil
    rw [havg, hveh, hnil]
    rfl

/-- Witness for C8 on a concrete step of the two-vehicle run. -/
theorem average_speed_formula_witness :
    (modelStep seedKeep3 stW3).total_speed =
      ((modelStep seedKeep3 stW3).vehicles.map (fun v => v.speed)).sum ∧
    (modelStep seedKeep3 stW3).average_speed =
      (if (modelStep seedKeep3 stW3).vehicles.length = 0 then 0
       else ((modelStep seedKeep3 stW3).total_speed : ℚ) /
         ((modelStep seedKeep3 stW3).vehicles.length : ℚ)) ∧
    (modelStep seedKeep3 stW3).averages =
      stW3.averages ++ [(modelStep seedKeep3 stW3).average_speed] ∧
    (stW3.vehicles = [] → (modelStep seedKeep3 stW3).average_speed = 0) :=
  average_speed_formula seedKeep3 stW3

/-- C9: two runs from equal seeds, equal configurations and equal step
counts have equal position/speed trajectories — in this embedding the
seed streams and the configuration are the only inputs of a run, so the
seeded random source is the only source of nondeterminism. -/
theorem run_deterministic (h1 w1 q1 m1 h2 w2 q2 m2 : Nat) (seed1 seed2 : Seed)
    (n1 n2 : Nat) (hh : h1 = h2) (hw : w1 = w2) (hq : q1 = q2) (hm : m1 = m2)
    (hs : seed1 = seed2) (hn : n1 = n2) :
    trajectory h1 w1 q1 m1 seed1 n1 = trajectory h2 w2 q2 m2 seed2 n2 := by
  subst hh hw hq hm hs hn
  rfl

/-- Witness for C9 at a concrete seed and configuration. -/
theorem run_deterministic_witness :
    trajectory 1 3 2 2 seedKeep3 5 = trajectory 1 3 2 2 seedKeep3 5 :=
  run_deterministic 1 3 2 2 1 3 2 2 seedKeep3 seedKeep3 5 5
    rfl rfl rfl rfl rfl rfl

/-- C10: in every reachable state of a successfully initialized run,
the vehicles' y coordinates are unchanged from the initial placement —
the gap scan queries and the committed move only vary the x coordinate. -/
theorem y_coordinate_fixed (height width vehicle_quantity general_max_speed : Nat)
    (seed : Seed) (st : NaSchState) (n : Nat)
    (hinit : initModel height width vehicle_quantity general_max_speed seed = some st) :
    (((modelStep seed)^[n]) st).vehicles.map (fun v => v.pos.2) =
      st.vehicles.map (fun v => v.pos.2) := by
  have hg : GoodState st :=
    (initModel_good height width vehicle_quantity general_max_speed seed st hinit).1
  induction n with
  | zero => rfl
  | succ n ih =>
    rw [Function.iterate_succ_apply']
    have hgn : GoodState (((modelStep seed)^[n]) st) := iterate_good seed st hg n
    rw [modelStep_vehicles]
    rw [advanced_ys _ _ _ _ _ _ (fun v hv => (hgn.2 v hv).2)]
    exact ih

/-- Witness for C10 on the two-vehicle run after two steps. -/
theorem y_coordinate_fixed_witness :
    (((modelStep seedKeep3)^[2]) stW3).vehicles.map (fun v => v.pos.2) =
      stW3.vehicles.map (fun v => v.pos.2) :=
  y_coordinate_fixed 1 3 2 2 seedKeep3 stW3 2 rfl

end NaSch
